import Mathlib

/-!
Verification of the HTK label refiner: phoneme classification, merge
decision, the two-pass label merger, and the lab-file parser/writer.
-/

set_option linter.unusedVariables false

/-- A label segment: `{start, end, phoneme}` from the lab file.  The Python
dict key `end` is rendered as the field `stop` (`end` is a Lean keyword). -/
structure Label where
  start : Int
  stop : Int
  phoneme : String
deriving DecidableEq

/-- `convert_htk_time_to_seconds`: `int(htk_time) * 1e-7`, modelled exactly
over the rationals (one tick is 100 ns): `t * 10⁻⁷` is the rational
`t / 10000000`. -/
def convert_htk_time_to_seconds (htk_time : Int) : ℚ :=
  mkRat htk_time 10000000

/-- Models Python `str.lower` on a single character, restricted to ASCII
(every phoneme token in the table is ASCII): uppercase A-Z map to a-z,
all other characters are unchanged. -/
def pyLowerChar (c : Char) : Char :=
  if c = 'A' then 'a' else if c = 'B' then 'b' else if c = 'C' then 'c'
  else if c = 'D' then 'd' else if c = 'E' then 'e' else if c = 'F' then 'f'
  else if c = 'G' then 'g' else if c = 'H' then 'h' else if c = 'I' then 'i'
  else if c = 'J' then 'j' else if c = 'K' then 'k' else if c = 'L' then 'l'
  else if c = 'M' then 'm' else if c = 'N' then 'n' else if c = 'O' then 'o'
  else if c = 'P' then 'p' else if c = 'Q' then 'q' else if c = 'R' then 'r'
  else if c = 'S' then 's' else if c = 'T' then 't' else if c = 'U' then 'u'
  else if c = 'V' then 'v' else if c = 'W' then 'w' else if c = 'X' then 'x'
  else if c = 'Y' then 'y' else if c = 'Z' then 'z' else c

/-- Models Python `str.lower` (ASCII), character by character. -/
def pyLower (s : String) : String :=
  ⟨s.data.map pyLowerChar⟩

/-- `PHONEME_GROUPS`: the fixed classification table, as an ordered
association list (Python dicts preserve insertion order). -/
def PHONEME_GROUPS : List (String × List String) :=
  [("sibilants", ["s", "z", "sh", "zh", "ts", "dz", "ch", "dj", "x"]),
   ("vowels", ["a", "e", "i", "o", "u", "N"]),
   ("consonants", ["b", "c", "d", "f", "g", "h", "j", "k", "l", "m", "n",
                   "p", "q", "r", "t", "v", "w"]),
   ("liquids", ["l", "r"]),
   ("nasals", ["m", "n", "ng"]),
   ("stops", ["p", "b", "t", "d", "k", "g"]),
   ("fricatives", ["f", "v", "th", "dh", "s", "z", "sh", "zh", "h"]),
   ("silence", ["pau", "sil", "SP"]),
   ("special", ["cl", "vf"])]

/-- The `for group_name, phonemes in PHONEME_GROUPS.items()` scan of
`get_phoneme_group`: first group whose member list contains the token. -/
def scanGroups (pl : String) : List (String × List String) → String
  | [] => "unknown"
  | (name, members) :: rest => if pl ∈ members then name else scanGroups pl rest

/-- `get_phoneme_group`: lowercase the token, special-case the silence
members, then scan the table in declaration order. -/
def get_phoneme_group (phoneme : String) : String :=
  if pyLower phoneme ∈ (PHONEME_GROUPS.lookup "silence").getD [] then "silence"
  else scanGroups (pyLower phoneme) PHONEME_GROUPS

/-- The auxiliary `merge_rules` allow-list of `should_merge_phonemes`. -/
def merge_rules : List (String × String) :=
  [("vowels", "vowels"), ("consonants", "consonants"), ("silence", "silence"),
   ("sibilants", "sibilants"), ("liquids", "liquids"), ("nasals", "nasals"),
   ("stops", "stops"), ("fricatives", "fricatives"), ("special", "special")]

/-- `should_merge_phonemes`: equal groups merge; otherwise consult the
allow-list in both orders.  The phoneme arguments are accepted (as in the
source) but never read. -/
def should_merge_phonemes (phoneme1 phoneme2 group1 group2 : String) : Bool :=
  if group1 = group2 then true
  else if (group1, group2) ∈ merge_rules ∨ (group2, group1) ∈ merge_rules
  then true else false

/-- The pass-1 merge condition of `merge_labels`:
`gap_seconds <= max_gap_seconds and should_merge_phonemes(...)`. -/
def mergeStep (maxGap : ℚ) (cur next : Label) (curGroup nextGroup : String) : Bool :=
  decide (convert_htk_time_to_seconds (next.start - cur.stop) ≤ maxGap) &&
    should_merge_phonemes cur.phoneme next.phoneme curGroup nextGroup

/-- Finalizing `current_label` in pass 1: silence segments are relabelled
to the canonical `"SP"` before being appended to `merged`. -/
def finalize_current (cur : Label) (curGroup : String) : Label :=
  if curGroup = "silence" then { cur with phoneme := "SP" } else cur

/-- Pass 1 of `merge_labels` (the `for i in range(1, len(labels))` loop):
`cur` is the accumulating `current_label`, `curGroup` its group as fixed
when the run started. -/
def pass1 (maxGap : ℚ) (cur : Label) (curGroup : String) : List Label → List Label
  | [] => [finalize_current cur curGroup]
  | next :: rest =>
    let nextGroup := get_phoneme_group next.phoneme
    if mergeStep maxGap cur next curGroup nextGroup then
      pass1 maxGap
        { cur with stop := next.stop,
                   phoneme := if curGroup = "silence" ∧ nextGroup = "silence"
                              then "SP" else cur.phoneme }
        curGroup rest
    else
      finalize_current cur curGroup :: pass1 maxGap next nextGroup rest

mutual

/-- Pass 2 of `merge_labels` (the `while i < len(merged)` loop): copy each
entry; an `"SP"` entry starts an absorption run. -/
def pass2 : List Label → List Label
  | [] => []
  | l :: rest => if l.phoneme = "SP" then pass2Absorb l rest else l :: pass2 rest

/-- The inner `while j < len(merged) and merged[j]['phoneme'] == 'SP'` loop:
absorb following `"SP"` entries into `cur` by extending its end; on the
first non-`"SP"` entry the loop stops, `cur` is emitted, and the outer loop
continues at that entry (which, being non-`"SP"`, is emitted unchanged). -/
def pass2Absorb (cur : Label) : List Label → List Label
  | [] => [cur]
  | l :: rest =>
    if l.phoneme = "SP" then pass2Absorb { cur with stop := l.stop } rest
    else cur :: l :: pass2 rest

end

/-- `merge_labels`: the two-pass merger.  `max_gap_seconds` (Python float,
default 0.1) is modelled as a rational. -/
def merge_labels (labels : List Label) (max_gap_seconds : ℚ) : List Label :=
  match labels with
  | [] => labels
  | first :: rest =>
    pass2 (pass1 max_gap_seconds first (get_phoneme_group first.phoneme) rest)

/-- No two consecutive entries of the list are both labelled `"SP"`. -/
def noAdjSP (l : List Label) : Prop :=
  List.Chain' (fun a b => ¬(a.phoneme = "SP" ∧ b.phoneme = "SP")) l

/-- Every adjacent pair of the list fails the pass-1 merge test (taking
each member's group from its own phoneme, as pass 1 does when no
relabelling has occurred). -/
def chainFail (q : ℚ) (l : List Label) : Prop :=
  List.Chain' (fun a b =>
    mergeStep q a b (get_phoneme_group a.phoneme) (get_phoneme_group b.phoneme) = false) l

/-! ### The lab-file parser and writer, at character level

A text file is modelled as its character list.  Python's `str.strip()`,
`str.split()` (no separator), `int()` and `str(int)` are modelled by
`pyStrip`, `pySplit`, `pyInt?` and `pyIntStr`, with `pyIsSpace` as the
whitespace class the first two are defined over. -/

/-- Models Python's whitespace test (`str.isspace`), the class that
`str.split()` and `str.strip()` break and trim on: the ASCII controls
U+0009-U+000D and U+001C-U+001F, the space U+0020, NEL U+0085,
NBSP U+00A0, and the Unicode space characters U+1680, U+2000-U+200A,
U+2028, U+2029, U+202F, U+205F and U+3000. -/
def pyIsSpace (c : Char) : Bool :=
  decide ((9 ≤ c.toNat ∧ c.toNat ≤ 13) ∨ (28 ≤ c.toNat ∧ c.toNat ≤ 31) ∨
    c.toNat = 32 ∨ c.toNat = 133 ∨ c.toNat = 160 ∨ c.toNat = 5760 ∨
    (8192 ≤ c.toNat ∧ c.toNat ≤ 8202) ∨ c.toNat = 8232 ∨ c.toNat = 8233 ∨
    c.toNat = 8239 ∨ c.toNat = 8287 ∨ c.toNat = 12288)

/-- Models Python `str.strip()`: drop whitespace from both ends. -/
def pyStrip (s : List Char) : List Char :=
  ((s.dropWhile pyIsSpace).reverse.dropWhile pyIsSpace).reverse

mutual

/-- Models Python `str.split()` with no separator: split on runs of
whitespace, discarding empty fields (state: between words). -/
def pySplit : List Char → List (List Char)
  | [] => []
  | c :: rest => if pyIsSpace c then pySplit rest else pySplitWord [c] rest

/-- `pySplit` while inside a word; `acc` holds the reversed word so far. -/
def pySplitWord (acc : List Char) : List Char → List (List Char)
  | [] => [acc.reverse]
  | c :: rest =>
    if pyIsSpace c then acc.reverse :: pySplit rest
    else pySplitWord (c :: acc) rest

end

/-- Decimal digit accumulator for `pyInt?`: consume digit characters,
failing on any non-digit. -/
def parseDigitsAcc : Nat → List Char → Option Nat
  | acc, [] => some acc
  | acc, c :: rest =>
    if c.isDigit then parseDigitsAcc (10 * acc + (c.toNat - 48)) rest
    else none

/-- A nonempty all-digit numeral, or failure. -/
def parseNatDigits : List Char → Option Nat
  | [] => none
  | l => parseDigitsAcc 0 l

/-- Models Python `int()` on a whitespace-free token: an optional sign
followed by at least one ASCII decimal digit; anything else raises
`ValueError` (here: `none`).  Python additionally accepts underscore
grouping between digits (`int("1_2") == 12`) and non-ASCII decimal
digits, which this model rejects; the writer never emits either, and the
parsing-contract theorem treats the field parser as opaque, so neither
claim depends on those inputs. -/
def pyInt? (s : List Char) : Option Int :=
  match s with
  | [] => none
  | c :: rest =>
    if c = '-' then (parseNatDigits rest).map (fun n : Nat => -(n : Int))
    else if c = '+' then (parseNatDigits rest).map (fun n : Nat => (n : Int))
    else (parseNatDigits (c :: rest)).map (fun n : Nat => (n : Int))

instance {ε α : Type} [DecidableEq ε] [DecidableEq α] : DecidableEq (Except ε α) :=
  fun x y =>
    match x, y with
    | .ok a, .ok b =>
        if h : a = b then isTrue (by rw [h])
        else isFalse (fun hh => h (by injection hh))
    | .error a, .error b =>
        if h : a = b then isTrue (by rw [h])
        else isFalse (fun hh => h (by injection hh))
    | .ok _, .error _ => isFalse (fun hh => Except.noConfusion hh)
    | .error _, .ok _ => isFalse (fun hh => Except.noConfusion hh)

/-- The per-line loop of `parse_lab_file`, over the stripped lines: blank
lines and lines with fewer than three fields are skipped; otherwise the
first two fields must parse as integers (else the whole parse fails, as
the `int()` exception propagates) and the third is the phoneme; any
further fields are ignored. -/
def parseLines : List (List Char) → Except Unit (List Label)
  | [] => Except.ok []
  | line :: rest =>
    let l := pyStrip line
    if l = [] then parseLines rest
    else
      let parts := pySplit l
      if 3 ≤ parts.length then
        match pyInt? (parts.getD 0 []), pyInt? (parts.getD 1 []) with
        | some s, some e =>
            (parseLines rest).map (fun ls => ⟨s, e, ⟨parts.getD 2 []⟩⟩ :: ls)
        | _, _ => Except.error ()
      else parseLines rest

/-- Split file content into lines at `'\n'` (result: current partial line,
later complete lines), modelling Python's line iteration; the terminators
themselves are dropped, which is immaterial after `strip()`. -/
def splitLinesAux : List Char → List Char × List (List Char)
  | [] => ([], [])
  | c :: rest =>
    let p := splitLinesAux rest
    if c = '\n' then ([], p.1 :: p.2) else (c :: p.1, p.2)

/-- The lines of a file's content. -/
def linesOf (content : List Char) : List (List Char) :=
  (splitLinesAux content).1 :: (splitLinesAux content).2

/-- `parse_lab_file`, as a function of the file's text content. -/
def parse_lab_file (content : String) : Except Unit (List Label) :=
  parseLines (linesOf content.data)

/-- Digit character for `pyNatStr` (`0 ≤ n ≤ 9` expected). -/
def pyDigitChar (n : Nat) : Char :=
  if n = 0 then '0' else if n = 1 then '1' else if n = 2 then '2'
  else if n = 3 then '3' else if n = 4 then '4' else if n = 5 then '5'
  else if n = 6 then '6' else if n = 7 then '7' else if n = 8 then '8'
  else '9'

/-- Fuelled decimal rendering of a natural (fuel bounds the recursion
`n ↦ n / 10`; any fuel above `n` is enough). -/
def pyNatStrAux : Nat → Nat → List Char
  | 0, _ => []
  | fuel + 1, n =>
    if n < 10 then [pyDigitChar n]
    else pyNatStrAux fuel (n / 10) ++ [pyDigitChar (n % 10)]

/-- Models Python `str()` of a natural number. -/
def pyNatStr (n : Nat) : List Char :=
  pyNatStrAux (n + 1) n

/-- Models Python `str()` of an integer: minus sign for negatives. -/
def pyIntStr (i : Int) : List Char :=
  if i < 0 then '-' :: pyNatStr i.natAbs else pyNatStr i.toNat

/-- One output line of `write_lab_file` (without its `'\n'` terminator):
`f"{label['start']} {label['end']} {label['phoneme']}"`. -/
def lineOfLabel (l : Label) : List Char :=
  pyIntStr l.start ++ ' ' :: (pyIntStr l.stop ++ ' ' :: l.phoneme.data)

/-- The characters `write_lab_file` writes: one `'\n'`-terminated line per
label. -/
def writeChars : List Label → List Char
  | [] => []
  | l :: rest => lineOfLabel l ++ '\n' :: writeChars rest

/-- `write_lab_file`, as the file's text content. -/
def write_lab_file (labels : List Label) : String :=
  ⟨writeChars labels⟩

/-! ### A store model of `merge_labels`, for the mutation claim

Python label dicts are heap objects; `merge_labels` receives a list of
references and mutates only the fresh `.copy()`s it allocates.  The heap is
modelled as a list of `Label` values indexed by allocation order; each
statement of the source that reads, copies (`dict.copy()`) or mutates
(`label['end'] = ...`, `label['phoneme'] = ...`) a dict acts on this store. -/

/-- The heap: labels indexed by reference. -/
abbrev Store := List Label

/-- Dereference (out-of-range reads yield a dummy; the contract keeps all
references in range). -/
def readRef (st : Store) (r : Nat) : Label :=
  st.getD r ⟨0, 0, ""⟩

/-- `dict.copy()`: allocate a fresh cell holding the same value. -/
def copyRef (st : Store) (r : Nat) : Store × Nat :=
  (st ++ [readRef st r], st.length)

/-- `label['end'] = e`. -/
def writeStop (st : Store) (r : Nat) (e : Int) : Store :=
  st.set r { readRef st r with stop := e }

/-- `label['phoneme'] = p`. -/
def writePhoneme (st : Store) (r : Nat) (p : String) : Store :=
  st.set r { readRef st r with phoneme := p }

/-- Pass 1 of `merge_labels` on the store: `cur` is the reference held by
`current_label` (always a fresh copy), `rest` the references of the
remaining input labels; returns the final store and the references
appended to `merged`. -/
def pass1Ref (maxGap : ℚ) : Store → Nat → String → List Nat → Store × List Nat
  | st, cur, curGroup, [] =>
    let st1 := if curGroup = "silence" then writePhoneme st cur "SP" else st
    (st1, [cur])
  | st, cur, curGroup, nextRef :: rest =>
    let next := readRef st nextRef
    let nextGroup := get_phoneme_group next.phoneme
    if mergeStep maxGap (readRef st cur) next curGroup nextGroup then
      let st1 := writeStop st cur next.stop
      let st2 := if curGroup = "silence" ∧ nextGroup = "silence"
                 then writePhoneme st1 cur "SP" else st1
      pass1Ref maxGap st2 cur curGroup rest
    else
      let st1 := if curGroup = "silence" then writePhoneme st cur "SP" else st
      let p := copyRef st1 nextRef
      let q := pass1Ref maxGap p.1 p.2 nextGroup rest
      (q.1, cur :: q.2)

mutual

/-- Pass 2 of `merge_labels` on the store: copy each entry of `merged`;
an `"SP"` copy starts an absorption run. -/
def pass2Ref : Store → List Nat → Store × List Nat
  | st, [] => (st, [])
  | st, r :: rest =>
    let p := copyRef st r
    if (readRef p.1 p.2).phoneme = "SP" then pass2RefAbsorb p.1 p.2 rest
    else
      let q := pass2Ref p.1 rest
      (q.1, p.2 :: q.2)

/-- The inner absorption loop of pass 2 on the store: extend the copy's
end over following `"SP"` entries; the first non-`"SP"` entry is then
copied and emitted unchanged, and the outer loop resumes after it. -/
def pass2RefAbsorb : Store → Nat → List Nat → Store × List Nat
  | st, cur, [] => (st, [cur])
  | st, cur, r :: rest =>
    if (readRef st r).phoneme = "SP" then
      pass2RefAbsorb (writeStop st cur (readRef st r).stop) cur rest
    else
      let p := copyRef st r
      let q := pass2Ref p.1 rest
      (q.1, cur :: p.2 :: q.2)

end

/-- `merge_labels` on the store: the input is a list of references into
`st`; the result is the final store and the references of the output list.
The empty input is returned as-is (the source returns the input list
object itself). -/
def merge_labels_ref (st : Store) (labels : List Nat) (maxGap : ℚ) : Store × List Nat :=
  match labels with
  | [] => (st, labels)
  | r0 :: rest =>
    let p := copyRef st r0
    let g0 := get_phoneme_group (readRef p.1 p.2).phoneme
    let q := pass1Ref maxGap p.1 p.2 g0 rest
    pass2Ref q.1 q.2

example : get_phoneme_group "pau" = "silence" := by decide
example : get_phoneme_group "SP" = "unknown" := by decide
example : get_phoneme_group "N" = "consonants" := by decide
example : get_phoneme_group "s" = "sibilants" := by decide

-- spec scenario 1
example : merge_labels [⟨0, 500000, "pau"⟩, ⟨500000, 1000000, "sil"⟩] (mkRat 1 10) =
    [⟨0, 1000000, "SP"⟩] := by decide
-- spec scenario 2
example : merge_labels [⟨0, 500000, "s"⟩, ⟨600000, 900000, "z"⟩] (mkRat 1 10) =
    [⟨0, 900000, "s"⟩] := by decide
-- spec scenario 3
example : merge_labels [⟨0, 100000, "a"⟩, ⟨2000000, 2100000, "e"⟩] (mkRat 1 10) =
    [⟨0, 100000, "a"⟩, ⟨2000000, 2100000, "e"⟩] := by decide
-- spec scenario 4
example : merge_labels [⟨0, 100000, "a"⟩, ⟨100000, 200000, "k"⟩] (mkRat 1 10) =
    [⟨0, 100000, "a"⟩, ⟨100000, 200000, "k"⟩] := by decide
-- spec scenario 5
example : merge_labels
    [⟨0, 100000, "pau"⟩, ⟨100000, 200000, "sil"⟩, ⟨200000, 300000, "SP"⟩] (mkRat 1 10) =
    [⟨0, 300000, "SP"⟩] := by decide
-- C3 counterexample check
example : merge_labels [⟨0, 100, "pau"⟩, ⟨100, 200, "foo"⟩] (mkRat 1 10) =
    [⟨0, 100, "SP"⟩, ⟨100, 200, "foo"⟩] := by decide
example : merge_labels [⟨0, 100, "SP"⟩, ⟨100, 200, "foo"⟩] (mkRat 1 10) =
    [⟨0, 200, "SP"⟩] := by decide

-- parser / writer sanity
example : parse_lab_file (write_lab_file [⟨0, 500000, "pau"⟩, ⟨500000, 1000000, "a"⟩]) =
    Except.ok [⟨0, 500000, "pau"⟩, ⟨500000, 1000000, "a"⟩] := by decide
example : parse_lab_file (write_lab_file [⟨-12, 3, "x"⟩]) =
    Except.ok [⟨-12, 3, "x"⟩] := by decide
example : parse_lab_file (write_lab_file [⟨0, 1, ""⟩]) = Except.ok [] := by decide
example : parse_lab_file ⟨"  \n12 34 a extra junk\n\nbad\n".data⟩ =
    Except.ok [⟨12, 34, "a"⟩] := by decide
example : parse_lab_file ⟨"12 x a\n".data⟩ = Except.error () := by decide

/-! ## Helper lemmas: classification and the merge decision -/

theorem mem_merge_rules_eq {g1 g2 : String} (h : (g1, g2) ∈ merge_rules) : g1 = g2 := by
  simp only [merge_rules, List.mem_cons, List.not_mem_nil, or_false, Prod.mk.injEq] at h
  rcases h with h|h|h|h|h|h|h|h|h <;> (rw [h.1, h.2])

theorem should_merge_phonemes_iff (p1 p2 g1 g2 : String) :
    should_merge_phonemes p1 p2 g1 g2 = true ↔ g1 = g2 := by
  unfold should_merge_phonemes
  split_ifs with h1 h2
  · simpa using h1
  · rcases h2 with h | h
    · simpa using mem_merge_rules_eq h
    · simpa using (mem_merge_rules_eq h).symm
  · simpa using h1

theorem lookup_silence_members :
    (PHONEME_GROUPS.lookup "silence").getD [] = ["pau", "sil", "SP"] := by decide

theorem pyLowerChar_ne_S (c : Char) : pyLowerChar c ≠ 'S' := by
  by_cases h1 : c = 'A'
  · subst h1; decide
  by_cases h2 : c = 'B'
  · subst h2; decide
  by_cases h3 : c = 'C'
  · subst h3; decide
  by_cases h4 : c = 'D'
  · subst h4; decide
  by_cases h5 : c = 'E'
  · subst h5; decide
  by_cases h6 : c = 'F'
  · subst h6; decide
  by_cases h7 : c = 'G'
  · subst h7; decide
  by_cases h8 : c = 'H'
  · subst h8; decide
  by_cases h9 : c = 'I'
  · subst h9; decide
  by_cases h10 : c = 'J'
  · subst h10; decide
  by_cases h11 : c = 'K'
  · subst h11; decide
  by_cases h12 : c = 'L'
  · subst h12; decide
  by_cases h13 : c = 'M'
  · subst h13; decide
  by_cases h14 : c = 'N'
  · subst h14; decide
  by_cases h15 : c = 'O'
  · subst h15; decide
  by_cases h16 : c = 'P'
  · subst h16; decide
  by_cases h17 : c = 'Q'
  · subst h17; decide
  by_cases h18 : c = 'R'
  · subst h18; decide
  by_cases h19 : c = 'S'
  · subst h19; decide
  by_cases h20 : c = 'T'
  · subst h20; decide
  by_cases h21 : c = 'U'
  · subst h21; decide
  by_cases h22 : c = 'V'
  · subst h22; decide
  by_cases h23 : c = 'W'
  · subst h23; decide
  by_cases h24 : c = 'X'
  · subst h24; decide
  by_cases h25 : c = 'Y'
  · subst h25; decide
  by_cases h26 : c = 'Z'
  · subst h26; decide
  intro hEq
  unfold pyLowerChar at hEq
  rw [if_neg h1, if_neg h2, if_neg h3, if_neg h4, if_neg h5, if_neg h6, if_neg h7, if_neg h8, if_neg h9, if_neg h10, if_neg h11, if_neg h12, if_neg h13, if_neg h14, if_neg h15, if_neg h16, if_neg h17, if_neg h18, if_neg h19, if_neg h20, if_neg h21, if_neg h22, if_neg h23, if_neg h24, if_neg h25, if_neg h26] at hEq
  exact h19 hEq

theorem pyLower_ne_SP (s : String) : pyLower s ≠ "SP" := by
  intro h
  have hd : s.data.map pyLowerChar = "SP".data := congrArg String.data h
  have hSP : "SP".data = ['S', 'P'] := rfl
  rw [hSP] at hd
  cases s with
  | mk l =>
    cases l with
    | nil => exact List.noConfusion hd
    | cons c t =>
      rw [List.map_cons] at hd
      exact pyLowerChar_ne_S c (List.head_eq_of_cons_eq hd)

theorem scanGroups_silence {pl : String}
    (h : scanGroups pl PHONEME_GROUPS = "silence") : pl ∈ ["pau", "sil", "SP"] := by
  revert h
  simp only [PHONEME_GROUPS, scanGroups]
  split_ifs <;> intro h <;> first | (exact absurd h (by decide)) | assumption

/-- `get_phoneme_group` returns `silence` exactly for lowercased `pau`/`sil`
(the table's `'SP'` entry is dead: `pyLower` never produces `"SP"`). -/
theorem get_phoneme_group_silence_iff (p : String) :
    get_phoneme_group p = "silence" ↔ (pyLower p = "pau" ∨ pyLower p = "sil") := by
  constructor
  · intro h
    unfold get_phoneme_group at h
    have hmem : pyLower p ∈ ["pau", "sil", "SP"] := by
      by_cases hm : pyLower p ∈ (PHONEME_GROUPS.lookup "silence").getD []
      · rw [lookup_silence_members] at hm; exact hm
      · rw [if_neg hm] at h; exact scanGroups_silence h
    simp only [List.mem_cons, List.not_mem_nil, or_false] at hmem
    rcases hmem with hm | hm | hm
    · exact Or.inl hm
    · exact Or.inr hm
    · exact absurd hm (pyLower_ne_SP p)
  · intro h
    unfold get_phoneme_group
    rw [lookup_silence_members]
    rcases h with h | h <;> rw [h] <;> decide

/-! ## C4: the allow-list is vestigial -/

/-- C4: `should_merge_phonemes` is extensionally the group-equality test:
for all groups `g1 g2` and any phoneme arguments, it returns true iff
`g1 = g2`; the allow-list never adds eligibility. -/
theorem c4_should_merge_iff_group_eq (p1 p2 g1 g2 : String) :
    should_merge_phonemes p1 p2 g1 g2 = true ↔ g1 = g2 :=
  should_merge_phonemes_iff p1 p2 g1 g2

/-- Witness for C4 at concrete inputs. -/
theorem c4_witness :
    should_merge_phonemes "a" "e" "vowels" "vowels" = true ∧
      ¬ should_merge_phonemes "a" "k" "vowels" "stops" = true :=
  ⟨(c4_should_merge_iff_group_eq "a" "e" "vowels" "vowels").mpr rfl,
   fun h => by simpa using (c4_should_merge_iff_group_eq "a" "k" "vowels" "stops").mp h⟩

/-! ## C2: the silence special case -/

/-- C2 counterexample: the token `"SP"` has lowercased form `"sp"` (one of
the three markers the claim names), yet is classified `"unknown"`, not
`"silence"` — the table's `'SP'` entry is compared case-sensitively against
the lowercased token and never matches. -/
theorem c2_counterexample_sp_not_silence :
    pyLower "SP" = "sp" ∧ get_phoneme_group "SP" = "unknown" ∧
      get_phoneme_group "sp" = "unknown" := by decide

/-- C2 amended: for every token whose lowercased form is `pau` or `sil`
(the reachable silence markers; lowercased `sp` is NOT one), classification
returns `silence`, ahead of any group scan. -/
theorem c2_pau_sil_silence (p : String)
    (h : pyLower p = "pau" ∨ pyLower p = "sil") :
    get_phoneme_group p = "silence" :=
  (get_phoneme_group_silence_iff p).mpr h

/-- Witness for C2 (amended) at a concrete input. -/
theorem c2_witness : get_phoneme_group "PAU" = "silence" :=
  c2_pau_sil_silence "PAU" (Or.inl (by decide))

/-! ## C10: the uppercase table entries are unreachable -/

/-- C10: the uppercase entries `'N'` (vowels) and `'SP'` (silence) are dead:
every token lowercasing to `"n"` is classified `consonants`; anything
classified `silence` lowercases to `pau` or `sil` (never via the `'SP'`
entry); and every token lowercasing to `"sp"` is classified `unknown`. -/
theorem c10_uppercase_entries_unreachable :
    (∀ p : String, pyLower p = "n" → get_phoneme_group p = "consonants") ∧
      (∀ p : String, get_phoneme_group p = "silence" →
        pyLower p = "pau" ∨ pyLower p = "sil") ∧
      (∀ p : String, pyLower p = "sp" → get_phoneme_group p = "unknown") := by
  refine ⟨fun p h => ?_, fun p h => (get_phoneme_group_silence_iff p).mp h, fun p h => ?_⟩
  · unfold get_phoneme_group; rw [h]; decide
  · unfold get_phoneme_group; rw [h]; decide

/-- Witness for C10 at concrete inputs. -/
theorem c10_witness :
    get_phoneme_group "N" = "consonants" ∧ get_phoneme_group "SP" = "unknown" :=
  ⟨c10_uppercase_entries_unreachable.1 "N" (by decide),
   c10_uppercase_entries_unreachable.2.2 "SP" (by decide)⟩

/-! ## Helper lemmas: pass 2 -/

theorem pass2_singleton (x : Label) : pass2 [x] = [x] := by
  rw [pass2]
  by_cases h : x.phoneme = "SP"
  · rw [if_pos h]; rfl
  · rw [if_neg h]; rfl

mutual

theorem noAdjSP_pass2 : ∀ l : List Label, noAdjSP (pass2 l)
  | [] => List.chain'_nil
  | l :: rest => by
    rw [pass2]
    by_cases h : l.phoneme = "SP"
    · rw [if_pos h]
      exact noAdjSP_pass2Absorb rest l
    · rw [if_neg h]
      refine List.chain'_cons'.mpr ⟨?_, noAdjSP_pass2 rest⟩
      intro y hy hcon
      exact h hcon.1

theorem noAdjSP_pass2Absorb : ∀ (l : List Label) (cur : Label),
    noAdjSP (pass2Absorb cur l)
  | [], cur => List.chain'_singleton cur
  | l :: rest, cur => by
    rw [pass2Absorb]
    by_cases h : l.phoneme = "SP"
    · rw [if_pos h]
      exact noAdjSP_pass2Absorb rest _
    · rw [if_neg h]
      refine List.chain'_cons'.mpr ⟨?_, ?_⟩
      · intro y hy hcon
        simp only [List.head?_cons, Option.mem_def, Option.some.injEq] at hy
        exact h (hy ▸ hcon).2
      · refine List.chain'_cons'.mpr ⟨?_, noAdjSP_pass2 rest⟩
        intro y hy hcon
        exact h hcon.1

end

/-! ## C5: no two consecutive SP segments in the output -/

/-- C5: for every input list and threshold, the output of `merge_labels`
never holds two consecutive segments both labelled `"SP"`. -/
theorem c5_no_adjacent_sp_in_output (labels : List Label) (q : ℚ) :
    noAdjSP (merge_labels labels q) := by
  cases labels with
  | nil => exact List.chain'_nil
  | cons a rest => exact noAdjSP_pass2 _

/-! ## C1: the adjacent-pair merge condition -/

/-- C1: pass 1 coalesces an adjacent pair iff the two groups are equal and
the gap in seconds is at most the threshold; on a two-segment input meeting
the condition, the output is the single merged segment spanning
`first.start .. second.end`. -/
theorem c1_adjacent_pair_merge (a b : Label) (q : ℚ) :
    (mergeStep q a b (get_phoneme_group a.phoneme) (get_phoneme_group b.phoneme) = true ↔
      (get_phoneme_group a.phoneme = get_phoneme_group b.phoneme ∧
        convert_htk_time_to_seconds (b.start - a.stop) ≤ q)) ∧
    (mergeStep q a b (get_phoneme_group a.phoneme) (get_phoneme_group b.phoneme) = true →
      ∃ p, merge_labels [a, b] q = [⟨a.start, b.stop, p⟩]) := by
  constructor
  · unfold mergeStep
    rw [Bool.and_eq_true, decide_eq_true_eq, should_merge_phonemes_iff]
    exact and_comm
  · intro hm
    have h1 : pass1 q a (get_phoneme_group a.phoneme) [b] =
        [finalize_current
          { a with stop := b.stop,
                   phoneme := if get_phoneme_group a.phoneme = "silence" ∧
                                 get_phoneme_group b.phoneme = "silence"
                              then "SP" else a.phoneme }
          (get_phoneme_group a.phoneme)] := by
      simp only [pass1, hm, if_true]
    refine ⟨(finalize_current
          { a with stop := b.stop,
                   phoneme := if get_phoneme_group a.phoneme = "silence" ∧
                                 get_phoneme_group b.phoneme = "silence"
                              then "SP" else a.phoneme }
          (get_phoneme_group a.phoneme)).phoneme, ?_⟩
    rw [show merge_labels [a, b] q = pass2 (pass1 q a (get_phoneme_group a.phoneme) [b])
          from rfl,
        h1, pass2_singleton]
    unfold finalize_current
    split_ifs <;> rfl

/-- Witness for C1 at concrete inputs (spec scenario 2: two sibilants with
a 0.01 s gap and a 0.1 s threshold). -/
theorem c1_witness :
    ∃ p, merge_labels [⟨0, 500000, "s"⟩, ⟨600000, 900000, "z"⟩] (mkRat 1 10) =
      [⟨0, 900000, p⟩] :=
  (c1_adjacent_pair_merge ⟨0, 500000, "s"⟩ ⟨600000, 900000, "z"⟩ (mkRat 1 10)).2
    (by decide)

/-! ## Helper lemmas: pass 1 -/

theorem finalize_eq_of_ne (cur : Label) (g : String) (hs : g ≠ "silence") :
    finalize_current cur g = cur := if_neg hs

theorem pass1_nil (q : ℚ) (cur : Label) (g : String) :
    pass1 q cur g [] = [finalize_current cur g] := rfl

theorem pass1_cons (q : ℚ) (cur : Label) (g : String) (next : Label) (rest : List Label) :
    pass1 q cur g (next :: rest) =
      if mergeStep q cur next g (get_phoneme_group next.phoneme) = true then
        pass1 q
          { cur with
              stop := next.stop,
              phoneme := if g = "silence" ∧ get_phoneme_group next.phoneme = "silence"
                         then "SP" else cur.phoneme }
          g rest
      else finalize_current cur g :: pass1 q next (get_phoneme_group next.phoneme) rest := by
  simp only [pass1]

/-- Pass 1 without silence relabelling preserves any phoneme predicate. -/
theorem pass1_phonemes (q : ℚ) (Q : String → Prop) :
    ∀ (rest : List Label) (cur : Label) (g : String),
      g = get_phoneme_group cur.phoneme → g ≠ "silence" →
      (∀ x ∈ rest, get_phoneme_group x.phoneme ≠ "silence") →
      Q cur.phoneme → (∀ x ∈ rest, Q x.phoneme) →
      ∀ y ∈ pass1 q cur g rest, Q y.phoneme
  | [], cur, g, hg, hs, _, hQ, _ => by
    intro y hy
    rw [pass1_nil, finalize_eq_of_ne _ _ hs, List.mem_singleton] at hy
    rw [hy]; exact hQ
  | next :: rest, cur, g, hg, hs, hrs, hQ, hQs => by
    intro y hy
    rw [pass1_cons] at hy
    by_cases hm : mergeStep q cur next g (get_phoneme_group next.phoneme) = true
    · rw [if_pos hm, if_neg (fun hc : g = "silence" ∧ _ => hs hc.1)] at hy
      exact pass1_phonemes q Q rest { cur with stop := next.stop, phoneme := cur.phoneme } g
        hg hs (fun x hx => hrs x (.tail _ hx)) hQ (fun x hx => hQs x (.tail _ hx)) y hy
    · rw [if_neg hm, finalize_eq_of_ne _ _ hs] at hy
      rcases List.mem_cons.mp hy with hy | hy
      · rw [hy]; exact hQ
      · exact pass1_phonemes q Q rest next (get_phoneme_group next.phoneme) rfl
          (hrs next (.head rest)) (fun x hx => hrs x (.tail _ hx))
          (hQs next (.head rest)) (fun x hx => hQs x (.tail _ hx)) y hy

/-- Without silence relabelling, the head of a pass-1 output keeps the
start and phoneme of the accumulating segment. -/
theorem pass1_shape (q : ℚ) :
    ∀ (rest : List Label) (cur : Label) (g : String),
      g = get_phoneme_group cur.phoneme → g ≠ "silence" →
      ∃ e t, pass1 q cur g rest = ⟨cur.start, e, cur.phoneme⟩ :: t
  | [], cur, g, hg, hs =>
    ⟨cur.stop, [], by rw [pass1_nil, finalize_eq_of_ne _ _ hs]⟩
  | next :: rest, cur, g, hg, hs => by
    by_cases hm : mergeStep q cur next g (get_phoneme_group next.phoneme) = true
    · obtain ⟨e, t, ht⟩ :=
        pass1_shape q rest { cur with stop := next.stop, phoneme := cur.phoneme } g hg hs
      refine ⟨e, t, ?_⟩
      rw [pass1_cons, if_pos hm, if_neg (fun hc : g = "silence" ∧ _ => hs hc.1)]
      exact ht
    · refine ⟨cur.stop, pass1 q next (get_phoneme_group next.phoneme) rest, ?_⟩
      rw [pass1_cons, if_neg hm, finalize_eq_of_ne _ _ hs]

/-- Without silence phonemes, every adjacent pair of a pass-1 output fails
the merge test. -/
theorem pass1_chainFail (q : ℚ) :
    ∀ (rest : List Label) (cur : Label) (g : String),
      g = get_phoneme_group cur.phoneme → g ≠ "silence" →
      (∀ x ∈ rest, get_phoneme_group x.phoneme ≠ "silence") →
      chainFail q (pass1 q cur g rest)
  | [], cur, g, hg, hs, _ => by
    rw [pass1_nil, finalize_eq_of_ne _ _ hs]
    exact List.chain'_singleton cur
  | next :: rest, cur, g, hg, hs, hrs => by
    rw [pass1_cons]
    by_cases hm : mergeStep q cur next g (get_phoneme_group next.phoneme) = true
    · rw [if_pos hm, if_neg (fun hc : g = "silence" ∧ _ => hs hc.1)]
      exact pass1_chainFail q rest _ g hg hs (fun x hx => hrs x (.tail _ hx))
    · rw [if_neg hm, finalize_eq_of_ne _ _ hs]
      have hs' : get_phoneme_group next.phoneme ≠ "silence" := hrs next (.head rest)
      obtain ⟨e, t, ht⟩ := pass1_shape q rest next (get_phoneme_group next.phoneme) rfl hs'
      refine List.chain'_cons'.mpr
        ⟨?_, pass1_chainFail q rest next _ rfl hs' (fun x hx => hrs x (.tail _ hx))⟩
      intro y hy
      rw [ht] at hy
      simp only [List.head?_cons, Option.mem_def, Option.some.injEq] at hy
      subst hy
      show mergeStep q cur ⟨next.start, e, next.phoneme⟩
          (get_phoneme_group cur.phoneme) (get_phoneme_group next.phoneme) = false
      rw [← hg]
      exact Bool.eq_false_iff.mpr hm

/-- On a list whose adjacent pairs all fail the merge test (and with no
silence phonemes), pass 1 is the identity. -/
theorem pass1_id (q : ℚ) :
    ∀ (rest : List Label) (cur : Label) (g : String),
      g = get_phoneme_group cur.phoneme → g ≠ "silence" →
      (∀ x ∈ rest, get_phoneme_group x.phoneme ≠ "silence") →
      chainFail q (cur :: rest) →
      pass1 q cur g rest = cur :: rest
  | [], cur, g, hg, hs, _, _ => by rw [pass1_nil, finalize_eq_of_ne _ _ hs]
  | next :: rest, cur, g, hg, hs, hrs, hch => by
    have hpair : mergeStep q cur next (get_phoneme_group cur.phoneme)
        (get_phoneme_group next.phoneme) = false := (List.chain'_cons.mp hch).1
    rw [← hg] at hpair
    rw [pass1_cons, if_neg (by rw [hpair]; exact Bool.false_ne_true),
        finalize_eq_of_ne _ _ hs]
    congr 1
    exact pass1_id q rest next _ rfl (hrs next (.head rest))
      (fun x hx => hrs x (.tail _ hx)) (List.chain'_cons.mp hch).2

/-! ## More pass-2 lemmas -/

/-- Pass 2 is the identity on a list with no two consecutive `"SP"`s. -/
theorem pass2_id : ∀ l : List Label, noAdjSP l → pass2 l = l
  | [], _ => rfl
  | a :: rest, h => by
    rw [pass2]
    by_cases ha : a.phoneme = "SP"
    · rw [if_pos ha]
      cases rest with
      | nil => rfl
      | cons b rest' =>
        have hb : b.phoneme ≠ "SP" := fun hb => (List.chain'_cons.mp h).1 ⟨ha, hb⟩
        rw [pass2Absorb, if_neg hb]
        have h2 : pass2 (b :: rest') = b :: rest' :=
          pass2_id (b :: rest') (List.chain'_cons.mp h).2
        rw [pass2, if_neg hb, List.cons.injEq] at h2
        rw [h2.2]
    · rw [if_neg ha]
      congr 1
      exact pass2_id rest (List.chain'_cons'.mp h).2

mutual

theorem pass2_phonemes (Q : String → Prop) : ∀ l : List Label,
    (∀ x ∈ l, Q x.phoneme) → ∀ y ∈ pass2 l, Q y.phoneme
  | [], _ => by intro y hy; exact absurd hy (List.not_mem_nil y)
  | l :: rest, h => by
    intro y hy
    rw [pass2] at hy
    by_cases hl : l.phoneme = "SP"
    · rw [if_pos hl] at hy
      exact pass2Absorb_phonemes Q rest l (h l (.head rest))
        (fun x hx => h x (.tail _ hx)) y hy
    · rw [if_neg hl] at hy
      rcases List.mem_cons.mp hy with hy | hy
      · rw [hy]; exact h l (.head rest)
      · exact pass2_phonemes Q rest (fun x hx => h x (.tail _ hx)) y hy

theorem pass2Absorb_phonemes (Q : String → Prop) : ∀ (l : List Label) (cur : Label),
    Q cur.phoneme → (∀ x ∈ l, Q x.phoneme) → ∀ y ∈ pass2Absorb cur l, Q y.phoneme
  | [], cur, hc, _ => by
    intro y hy
    rw [pass2Absorb, List.mem_singleton] at hy
    rw [hy]; exact hc
  | l :: rest, cur, hc, h => by
    intro y hy
    rw [pass2Absorb] at hy
    by_cases hl : l.phoneme = "SP"
    · rw [if_pos hl] at hy
      exact pass2Absorb_phonemes Q rest { cur with stop := l.stop } hc
        (fun x hx => h x (.tail _ hx)) y hy
    · rw [if_neg hl] at hy
      rcases List.mem_cons.mp hy with hy | hy
      · rw [hy]; exact hc
      rcases List.mem_cons.mp hy with hy | hy
      · rw [hy]; exact h l (.head rest)
      · exact pass2_phonemes Q rest (fun x hx => h x (.tail _ hx)) y hy

end

theorem pass2Absorb_shape : ∀ (l : List Label) (cur : Label),
    ∃ e t, pass2Absorb cur l = ⟨cur.start, e, cur.phoneme⟩ :: t
  | [], cur => ⟨cur.stop, [], by rw [pass2Absorb]⟩
  | l :: rest, cur => by
    by_cases hl : l.phoneme = "SP"
    · obtain ⟨e, t, ht⟩ := pass2Absorb_shape rest { cur with stop := l.stop }
      exact ⟨e, t, by rw [pass2Absorb, if_pos hl]; exact ht⟩
    · exact ⟨cur.stop, l :: pass2 rest, by rw [pass2Absorb, if_neg hl]⟩

theorem pass2_shape (a : Label) (l : List Label) :
    ∃ e t, pass2 (a :: l) = ⟨a.start, e, a.phoneme⟩ :: t := by
  by_cases ha : a.phoneme = "SP"
  · obtain ⟨e, t, ht⟩ := pass2Absorb_shape l a
    exact ⟨e, t, by rw [pass2, if_pos ha]; exact ht⟩
  · exact ⟨a.stop, pass2 l, by rw [pass2, if_neg ha]⟩

mutual

theorem pass2_chainFail (q : ℚ) : ∀ l : List Label,
    chainFail q l → chainFail q (pass2 l)
  | [], _ => List.chain'_nil
  | a :: rest, h => by
    rw [pass2]
    by_cases ha : a.phoneme = "SP"
    · rw [if_pos ha]
      exact pass2Absorb_chainFail q rest a ha (List.chain'_cons'.mp h).2
        (fun b hb => (List.chain'_cons'.mp h).1 b hb)
    · rw [if_neg ha]
      refine List.chain'_cons'.mpr
        ⟨?_, pass2_chainFail q rest (List.chain'_cons'.mp h).2⟩
      intro y hy
      cases rest with
      | nil => rw [pass2] at hy; exact absurd hy (by simp)
      | cons b rest' =>
        obtain ⟨e, t, ht⟩ := pass2_shape b rest'
        rw [ht] at hy
        simp only [List.head?_cons, Option.mem_def, Option.some.injEq] at hy
        subst hy
        exact (List.chain'_cons.mp h).1

theorem pass2Absorb_chainFail (q : ℚ) : ∀ (l : List Label) (cur : Label),
    cur.phoneme = "SP" → chainFail q l →
    (∀ b, l.head? = some b →
      mergeStep q cur b (get_phoneme_group cur.phoneme)
        (get_phoneme_group b.phoneme) = false) →
    chainFail q (pass2Absorb cur l)
  | [], cur, _, _, _ => by rw [pass2Absorb]; exact List.chain'_singleton cur
  | b :: rest, cur, hcur, hch, hhead => by
    rw [pass2Absorb]
    by_cases hb : b.phoneme = "SP"
    · rw [if_pos hb]
      refine pass2Absorb_chainFail q rest _ hcur (List.chain'_cons'.mp hch).2 ?_
      intro c hc
      have hbc := (List.chain'_cons'.mp hch).1 c hc
      have e1 : ({ cur with stop := b.stop } : Label).phoneme = "SP" := hcur
      unfold mergeStep
      unfold mergeStep at hbc
      rw [e1]
      rw [hb] at hbc
      exact hbc
    · rw [if_neg hb]
      refine List.chain'_cons'.mpr ⟨?_, ?_⟩
      · intro y hy
        simp only [List.head?_cons, Option.mem_def, Option.some.injEq] at hy
        subst hy
        exact hhead b rfl
      · refine List.chain'_cons'.mpr
          ⟨?_, pass2_chainFail q rest (List.chain'_cons'.mp hch).2⟩
        intro y hy
        cases rest with
        | nil => rw [pass2] at hy; exact absurd hy (by simp)
        | cons c rest' =>
          obtain ⟨e, t, ht⟩ := pass2_shape c rest'
          rw [ht] at hy
          simp only [List.head?_cons, Option.mem_def, Option.some.injEq] at hy
          subst hy
          exact (List.chain'_cons'.mp hch).1 c rfl

end

/-- A list that is already fully merged (all adjacent pairs fail the test,
no silence phonemes, no adjacent `"SP"`s) is a fixed point of
`merge_labels`. -/
theorem merge_labels_fixed (M : List Label) (q : ℚ)
    (hph : ∀ y ∈ M, get_phoneme_group y.phoneme ≠ "silence")
    (hch : chainFail q M) (hadj : noAdjSP M) :
    merge_labels M q = M := by
  cases M with
  | nil => rfl
  | cons m t =>
    show pass2 (pass1 q m (get_phoneme_group m.phoneme) t) = m :: t
    rw [pass1_id q t m _ rfl (hph m (.head t)) (fun x hx => hph x (.tail _ hx)) hch]
    exact pass2_id (m :: t) hadj

/-! ## C3: idempotence -/

/-- C3 counterexample: `merge_labels` is not idempotent.  On
`[(0,100,"pau"), (100,200,"foo")]` with threshold 0.1 s the first
application yields `[(0,100,"SP"), (100,200,"foo")]` (the silence segment
is relabelled `"SP"`, which reclassifies as `unknown`); the second
application then merges the pair (both now `unknown`, zero gap) into
`[(0,200,"SP")]`. -/
theorem c3_counterexample_not_idempotent :
    merge_labels (merge_labels [⟨0, 100, "pau"⟩, ⟨100, 200, "foo"⟩] (mkRat 1 10))
        (mkRat 1 10) ≠
      merge_labels [⟨0, 100, "pau"⟩, ⟨100, 200, "foo"⟩] (mkRat 1 10) := by decide

/-- C3 amended: `merge_labels` is idempotent on every input list none of
whose phonemes is classified `silence` (the counterexample shows the
restriction is needed: relabelling silence to `"SP"` changes its group). -/
theorem c3_idempotent_without_silence (L : List Label) (q : ℚ)
    (h : ∀ x ∈ L, get_phoneme_group x.phoneme ≠ "silence") :
    merge_labels (merge_labels L q) q = merge_labels L q := by
  cases L with
  | nil => rfl
  | cons a rest =>
    have ha : get_phoneme_group a.phoneme ≠ "silence" := h a (.head rest)
    have hrest : ∀ x ∈ rest, get_phoneme_group x.phoneme ≠ "silence" :=
      fun x hx => h x (.tail _ hx)
    have hml : merge_labels (a :: rest) q =
        pass2 (pass1 q a (get_phoneme_group a.phoneme) rest) := rfl
    have hph1 : ∀ y ∈ pass1 q a (get_phoneme_group a.phoneme) rest,
        get_phoneme_group y.phoneme ≠ "silence" :=
      pass1_phonemes q (fun p => get_phoneme_group p ≠ "silence") rest a _
        rfl ha hrest ha hrest
    have hch1 : chainFail q (pass1 q a (get_phoneme_group a.phoneme) rest) :=
      pass1_chainFail q rest a _ rfl ha hrest
    rw [hml]
    exact merge_labels_fixed _ q
      (pass2_phonemes (fun p => get_phoneme_group p ≠ "silence") _ hph1)
      (pass2_chainFail q _ hch1)
      (noAdjSP_pass2 _)

/-- Witness for C3 (amended) at a concrete input. -/
theorem c3_witness :
    merge_labels (merge_labels [⟨0, 100, "a"⟩, ⟨5000000, 5000100, "k"⟩] (mkRat 1 10))
        (mkRat 1 10) =
      merge_labels [⟨0, 100, "a"⟩, ⟨5000000, 5000100, "k"⟩] (mkRat 1 10) :=
  c3_idempotent_without_silence [⟨0, 100, "a"⟩, ⟨5000000, 5000100, "k"⟩] (mkRat 1 10)
    (by decide)

/-! ## C8: the line-level parsing contract -/

/-- C8: for any line and remaining lines — a blank (all-whitespace) line is
skipped; a line with fewer than three fields is skipped; with at least
three fields whose first two parse as integers, exactly the first three
fields are consulted (the segment built from them is prepended to the rest
of the parse, so later fields are ignored); and if a consulted field does
not parse as an integer, the whole parse fails with an error rather than
skipping the line. -/
theorem c8_parse_line_contract (line : List Char) (rest : List (List Char)) :
    (pyStrip line = [] → parseLines (line :: rest) = parseLines rest) ∧
    ((pySplit (pyStrip line)).length < 3 →
      parseLines (line :: rest) = parseLines rest) ∧
    (∀ s e : Int, 3 ≤ (pySplit (pyStrip line)).length →
      pyInt? ((pySplit (pyStrip line)).getD 0 []) = some s →
      pyInt? ((pySplit (pyStrip line)).getD 1 []) = some e →
      parseLines (line :: rest) =
        (parseLines rest).map
          (fun ls => ⟨s, e, ⟨(pySplit (pyStrip line)).getD 2 []⟩⟩ :: ls)) ∧
    (3 ≤ (pySplit (pyStrip line)).length →
      (pyInt? ((pySplit (pyStrip line)).getD 0 []) = none ∨
        pyInt? ((pySplit (pyStrip line)).getD 1 []) = none) →
      parseLines (line :: rest) = Except.error ()) := by
  refine ⟨fun hb => ?_, fun h3 => ?_, fun s e h3 h0 h1 => ?_, fun h3 h01 => ?_⟩
  · simp only [parseLines]
    rw [if_pos hb]
  · by_cases hb : pyStrip line = []
    · simp only [parseLines]; rw [if_pos hb]
    · simp only [parseLines]
      rw [if_neg hb, if_neg (by omega)]
  · have hb : pyStrip line ≠ [] := by
      intro hb; rw [hb] at h3; exact absurd h3 (by decide)
    simp only [parseLines]
    rw [if_neg hb, if_pos h3, h0, h1]
  · have hb : pyStrip line ≠ [] := by
      intro hb; rw [hb] at h3; exact absurd h3 (by decide)
    simp only [parseLines]
    rw [if_neg hb, if_pos h3]
    rcases h01 with h01 | h01
    · rw [h01]
    · rw [h01]
      cases pyInt? ((pySplit (pyStrip line)).getD 0 []) <;> rfl

/-- Witness for C8 at a concrete line (`"1 x a"`: second field is not an
integer, so the whole parse errors). -/
theorem c8_witness : parseLines [['1', ' ', 'x', ' ', 'a']] = Except.error () :=
  (c8_parse_line_contract ['1', ' ', 'x', ' ', 'a'] []).2.2.2 (by decide)
    (Or.inr (by decide))

/-! ## Helper lemmas: decimal rendering inverts parsing -/

theorem pyDigitChar_spec (n : Nat) (h : n < 10) :
    (pyDigitChar n).isDigit = true ∧ (pyDigitChar n).toNat - 48 = n ∧
      pyIsSpace (pyDigitChar n) = false ∧ pyDigitChar n ≠ '-' ∧
      pyDigitChar n ≠ '+' ∧ pyDigitChar n ≠ '\n' := by
  interval_cases n <;> exact ⟨rfl, rfl, by decide, by decide, by decide, by decide⟩

theorem pyNatStrAux_chars : ∀ (fuel n : Nat), ∀ c ∈ pyNatStrAux fuel n,
    ∃ k, k < 10 ∧ c = pyDigitChar k
  | 0, n => by intro c hc; exact absurd hc (List.not_mem_nil c)
  | fuel + 1, n => by
    intro c hc
    rw [pyNatStrAux] at hc
    by_cases h10 : n < 10
    · rw [if_pos h10, List.mem_singleton] at hc
      exact ⟨n, h10, hc⟩
    · rw [if_neg h10, List.mem_append] at hc
      rcases hc with hc | hc
      · exact pyNatStrAux_chars fuel (n / 10) c hc
      · rw [List.mem_singleton] at hc
        exact ⟨n % 10, Nat.mod_lt n (by omega), hc⟩

theorem pyNatStrAux_ne_nil (fuel n : Nat) : pyNatStrAux (fuel + 1) n ≠ [] := by
  rw [pyNatStrAux]
  by_cases h10 : n < 10
  · rw [if_pos h10]; exact List.cons_ne_nil _ _
  · rw [if_neg h10]
    intro h
    exact List.cons_ne_nil _ _ (List.append_eq_nil.mp h).2

theorem parseDigitsAcc_append : ∀ (l1 l2 : List Char) (acc : Nat),
    parseDigitsAcc acc (l1 ++ l2) =
      (parseDigitsAcc acc l1).bind (fun m => parseDigitsAcc m l2)
  | [], l2, acc => rfl
  | c :: t, l2, acc => by
    rw [List.cons_append, parseDigitsAcc, parseDigitsAcc]
    by_cases hd : c.isDigit = true
    · rw [if_pos hd, if_pos hd]
      exact parseDigitsAcc_append t l2 _
    · rw [if_neg hd, if_neg hd]; rfl

theorem parseDigitsAcc_natStrAux : ∀ (fuel n acc : Nat), n < fuel →
    parseDigitsAcc acc (pyNatStrAux fuel n) =
      some (acc * 10 ^ (pyNatStrAux fuel n).length + n)
  | 0, n, acc, h => absurd h (Nat.not_lt_zero n)
  | fuel + 1, n, acc, h => by
    rw [pyNatStrAux]
    by_cases h10 : n < 10
    · rw [if_pos h10]
      obtain ⟨hd, hv, -⟩ := pyDigitChar_spec n h10
      rw [parseDigitsAcc, if_pos hd, parseDigitsAcc, hv]
      simp only [List.length_singleton, pow_one]
      congr 1
      omega
    · rw [if_neg h10]
      have hdiv : n / 10 < fuel := by
        have h1 : n / 10 < n := Nat.div_lt_self (by omega) (by omega)
        omega
      rw [parseDigitsAcc_append, parseDigitsAcc_natStrAux fuel (n / 10) acc hdiv]
      obtain ⟨hd, hv, -⟩ := pyDigitChar_spec (n % 10) (Nat.mod_lt n (by omega))
      rw [Option.some_bind, parseDigitsAcc, if_pos hd, hv, parseDigitsAcc]
      rw [List.length_append, List.length_singleton]
      congr 1
      have hmod := Nat.div_add_mod n 10
      calc 10 * (acc * 10 ^ (pyNatStrAux fuel (n / 10)).length + n / 10) + n % 10
          = acc * (10 ^ (pyNatStrAux fuel (n / 10)).length * 10) +
              (10 * (n / 10) + n % 10) := by ring
        _ = acc * 10 ^ ((pyNatStrAux fuel (n / 10)).length + 1) + n := by
              rw [hmod, pow_succ]

theorem parseNatDigits_pyNatStr (n : Nat) : parseNatDigits (pyNatStr n) = some n := by
  unfold pyNatStr
  cases hsh : pyNatStrAux (n + 1) n with
  | nil => exact absurd hsh (pyNatStrAux_ne_nil n n)
  | cons c t =>
    have : parseNatDigits (c :: t) = parseDigitsAcc 0 (c :: t) := rfl
    rw [this, ← hsh, parseDigitsAcc_natStrAux (n + 1) n 0 (Nat.lt_succ_self n)]
    simp

theorem pyNatStr_head (n : Nat) :
    ∃ c t, pyNatStr n = c :: t ∧ c ≠ '-' ∧ c ≠ '+' := by
  unfold pyNatStr
  cases hsh : pyNatStrAux (n + 1) n with
  | nil => exact absurd hsh (pyNatStrAux_ne_nil n n)
  | cons c t =>
    obtain ⟨k, hk, hc⟩ := pyNatStrAux_chars (n + 1) n c (by rw [hsh]; exact .head t)
    obtain ⟨-, -, -, hm, hp, -⟩ := pyDigitChar_spec k hk
    exact ⟨c, t, rfl, hc ▸ hm, hc ▸ hp⟩

/-- Rendering an integer with `pyIntStr` and parsing it back with `pyInt?`
recovers the integer (the model of `int(str(i)) == i`). -/
theorem pyInt?_pyIntStr (i : Int) : pyInt? (pyIntStr i) = some i := by
  unfold pyIntStr
  by_cases hi : i < 0
  · rw [if_pos hi]
    show pyInt? ('-' :: pyNatStr i.natAbs) = some i
    rw [pyInt?, if_pos rfl, parseNatDigits_pyNatStr]
    simp only [Option.map_some']
    congr 1
    omega
  · rw [if_neg hi]
    obtain ⟨c, t, hct, hm, hp⟩ := pyNatStr_head i.toNat
    rw [hct, pyInt?, if_neg hm, if_neg hp, ← hct, parseNatDigits_pyNatStr]
    simp only [Option.map_some']
    congr 1
    omega

theorem pyIntStr_chars (i : Int) : ∀ c ∈ pyIntStr i, pyIsSpace c = false := by
  intro c hc
  unfold pyIntStr at hc
  have hnat : ∀ m : Nat, c ∈ pyNatStr m → pyIsSpace c = false := by
    intro m hm
    obtain ⟨k, hk, hck⟩ := pyNatStrAux_chars (m + 1) m c hm
    obtain ⟨-, -, hw, -⟩ := pyDigitChar_spec k hk
    rw [hck]; exact hw
  by_cases hi : i < 0
  · rw [if_pos hi, List.mem_cons] at hc
    rcases hc with hc | hc
    · rw [hc]; decide
    · exact hnat _ hc
  · rw [if_neg hi] at hc
    exact hnat _ hc

theorem pyIntStr_ne_nil (i : Int) : pyIntStr i ≠ [] := by
  unfold pyIntStr
  by_cases hi : i < 0
  · rw [if_pos hi]; exact List.cons_ne_nil _ _
  · rw [if_neg hi]; exact pyNatStrAux_ne_nil _ _

/-! ## Helper lemmas: strip, split and line splitting -/

theorem dropWhile_eq_self_of_head {l : List Char}
    (h : ∀ c, l.head? = some c → pyIsSpace c = false) :
    l.dropWhile pyIsSpace = l := by
  cases l with
  | nil => rfl
  | cons a t =>
    rw [List.dropWhile_cons, if_neg]
    rw [h a rfl]
    exact Bool.false_ne_true

theorem pyStrip_eq_self {l : List Char}
    (h1 : ∀ c, l.head? = some c → pyIsSpace c = false)
    (h2 : ∀ c, l.getLast? = some c → pyIsSpace c = false) :
    pyStrip l = l := by
  unfold pyStrip
  rw [dropWhile_eq_self_of_head h1]
  rw [dropWhile_eq_self_of_head (fun c hc => h2 c (by rwa [List.head?_reverse] at hc))]
  exact List.reverse_reverse l

theorem pySplitWord_append : ∀ (w : List Char), (∀ c ∈ w, pyIsSpace c = false) →
    ∀ (acc rest : List Char),
      pySplitWord acc (w ++ rest) = pySplitWord (w.reverse ++ acc) rest
  | [], _, acc, rest => by simp
  | c :: w', hw, acc, rest => by
    rw [List.cons_append, pySplitWord, if_neg (by rw [hw c (.head w')]; exact Bool.false_ne_true),
        pySplitWord_append w' (fun x hx => hw x (.tail _ hx)) (c :: acc) rest,
        List.reverse_cons, List.append_assoc, List.singleton_append]

theorem pySplit_word_sep (w : List Char) (hne : w ≠ [])
    (hw : ∀ c ∈ w, pyIsSpace c = false) (rest : List Char) :
    pySplit (w ++ ' ' :: rest) = w :: pySplit rest := by
  cases w with
  | nil => exact absurd rfl hne
  | cons c w' =>
    rw [List.cons_append, pySplit,
        if_neg (by rw [hw c (.head w')]; exact Bool.false_ne_true),
        pySplitWord_append w' (fun x hx => hw x (.tail _ hx)) [c] (' ' :: rest),
        pySplitWord, if_pos (by decide)]
    congr 1
    rw [← List.reverse_cons, List.reverse_reverse]

theorem pySplit_word_last (w : List Char) (hne : w ≠ [])
    (hw : ∀ c ∈ w, pyIsSpace c = false) :
    pySplit w = [w] := by
  cases w with
  | nil => exact absurd rfl hne
  | cons c w' =>
    have ha : pySplitWord [c] (w' ++ []) = pySplitWord (w'.reverse ++ [c]) [] :=
      pySplitWord_append w' (fun x hx => hw x (.tail _ hx)) [c] []
    rw [List.append_nil] at ha
    rw [pySplit, if_neg (by rw [hw c (.head w')]; exact Bool.false_ne_true), ha,
        pySplitWord]
    congr 1
    rw [← List.reverse_cons, List.reverse_reverse]

theorem splitLinesAux_append : ∀ (line : List Char), (∀ c ∈ line, c ≠ '\n') →
    ∀ cs : List Char,
      splitLinesAux (line ++ '\n' :: cs) =
        (line, (splitLinesAux cs).1 :: (splitLinesAux cs).2)
  | [], _, cs => by rw [List.nil_append, splitLinesAux, if_pos rfl]
  | c :: t, h, cs => by
    rw [List.cons_append, splitLinesAux,
        splitLinesAux_append t (fun x hx => h x (.tail _ hx)) cs,
        if_neg (h c (.head t))]

/-! ## C6: write/parse round trip -/

/-- The characters of one output line (numeric fields are sign/digit
characters; spaces separate the three fields). -/
theorem lineOfLabel_no_newline (l : Label)
    (hws : ∀ c ∈ l.phoneme.data, pyIsSpace c = false) :
    ∀ c ∈ lineOfLabel l, c ≠ '\n' := by
  intro c hc
  have hof : ∀ d : Char, pyIsSpace d = false → d ≠ '\n' := by
    intro d hd he
    rw [he] at hd
    exact absurd hd (by decide)
  unfold lineOfLabel at hc
  rw [List.mem_append] at hc
  rcases hc with hc | hc
  · exact hof c (pyIntStr_chars l.start c hc)
  rw [List.mem_cons] at hc
  rcases hc with hc | hc
  · rw [hc]; decide
  rw [List.mem_append] at hc
  rcases hc with hc | hc
  · exact hof c (pyIntStr_chars l.stop c hc)
  rw [List.mem_cons] at hc
  rcases hc with hc | hc
  · rw [hc]; decide
  · exact hof c (hws c hc)

/-- Parsing one written line prepends exactly the written label. -/
theorem parseLines_lineOfLabel (lbl : Label) (hne : lbl.phoneme.data ≠ [])
    (hws : ∀ c ∈ lbl.phoneme.data, pyIsSpace c = false)
    (rest : List (List Char)) :
    parseLines (lineOfLabel lbl :: rest) =
      (parseLines rest).map (fun ls => lbl :: ls) := by
  obtain ⟨c0, t0, hct, -, -⟩ := pyNatStr_head lbl.start.toNat
  have hstrip : pyStrip (lineOfLabel lbl) = lineOfLabel lbl := by
    apply pyStrip_eq_self
    · intro c hc
      unfold lineOfLabel at hc
      cases hA : pyIntStr lbl.start with
      | nil => exact absurd hA (pyIntStr_ne_nil _)
      | cons a t =>
        rw [hA, List.cons_append, List.head?_cons, Option.some.injEq] at hc
        rw [← hc]
        exact pyIntStr_chars lbl.start a (by rw [hA]; exact .head t)
    · intro c hc
      unfold lineOfLabel at hc
      rw [show pyIntStr lbl.start ++ ' ' :: (pyIntStr lbl.stop ++ ' ' :: lbl.phoneme.data) =
            (pyIntStr lbl.start ++ ' ' :: pyIntStr lbl.stop ++ [' ']) ++ lbl.phoneme.data by
          simp [List.append_assoc]] at hc
      rw [List.getLast?_append_of_ne_nil _ hne] at hc
      obtain ⟨hh, hx⟩ := List.mem_getLast?_eq_getLast hc
      rw [hx]
      exact hws _ (List.getLast_mem hh)
  have hsplit : pySplit (lineOfLabel lbl) =
      [pyIntStr lbl.start, pyIntStr lbl.stop, lbl.phoneme.data] := by
    unfold lineOfLabel
    rw [pySplit_word_sep (pyIntStr lbl.start) (pyIntStr_ne_nil _) (pyIntStr_chars _),
        pySplit_word_sep (pyIntStr lbl.stop) (pyIntStr_ne_nil _) (pyIntStr_chars _),
        pySplit_word_last lbl.phoneme.data hne hws]
  have hlinene : lineOfLabel lbl ≠ [] := by
    unfold lineOfLabel
    intro h
    exact pyIntStr_ne_nil lbl.start (List.append_eq_nil.mp h).1
  simp only [parseLines]
  rw [hstrip, if_neg hlinene, hsplit]
  rw [show ([pyIntStr lbl.start, pyIntStr lbl.stop, lbl.phoneme.data] :
        List (List Char)).getD 0 [] = pyIntStr lbl.start from rfl,
      show ([pyIntStr lbl.start, pyIntStr lbl.stop, lbl.phoneme.data] :
        List (List Char)).getD 1 [] = pyIntStr lbl.stop from rfl]
  rw [show ([pyIntStr lbl.start, pyIntStr lbl.stop, lbl.phoneme.data] :
        List (List Char)).length = 3 from rfl,
      if_pos (le_refl 3)]
  rw [pyInt?_pyIntStr, pyInt?_pyIntStr]
  rfl

/-- Writing then splitting back into lines recovers one line per label,
plus the empty tail after the final newline. -/
theorem linesOf_writeChars : ∀ labels : List Label,
    (∀ l ∈ labels, ∀ c ∈ l.phoneme.data, pyIsSpace c = false) →
    linesOf (writeChars labels) = labels.map lineOfLabel ++ [[]]
  | [], _ => rfl
  | l :: rest, h => by
    show linesOf (lineOfLabel l ++ '\n' :: writeChars rest) = _
    unfold linesOf
    rw [splitLinesAux_append (lineOfLabel l)
        (lineOfLabel_no_newline l (h l (.head rest))) (writeChars rest)]
    have ih := linesOf_writeChars rest (fun x hx => h x (.tail _ hx))
    unfold linesOf at ih
    rw [List.map_cons, List.cons_append]
    exact congrArg (lineOfLabel l :: ·) ih

theorem parseLines_mapped : ∀ labels : List Label,
    (∀ l ∈ labels, l.phoneme.data ≠ [] ∧ ∀ c ∈ l.phoneme.data, pyIsSpace c = false) →
    parseLines (labels.map lineOfLabel ++ [[]]) = Except.ok labels
  | [], _ => rfl
  | l :: rest, h => by
    rw [List.map_cons, List.cons_append,
        parseLines_lineOfLabel l (h l (.head rest)).1 (h l (.head rest)).2,
        parseLines_mapped rest (fun x hx => h x (.tail _ hx))]
    rfl

/-- C6 counterexample: the round trip fails for a label whose phoneme is
the empty string — its written line has only two fields and is skipped on
re-parsing. -/
theorem c6_counterexample_roundtrip :
    parse_lab_file (write_lab_file [⟨0, 1, ""⟩]) ≠ Except.ok [⟨0, 1, ""⟩] := by decide

/-- C6 amended: writing a segment list and re-parsing the text reproduces
exactly the same list, provided every phoneme is nonempty and contains no
character of Python's whitespace class `pyIsSpace` (the class `split()`
and `strip()` act on).  The lab format cannot represent other phonemes:
an empty or whitespace-bearing phoneme changes the line's field
structure, as the counterexample shows. -/
theorem c6_roundtrip_wellformed (labels : List Label)
    (h : ∀ l ∈ labels, l.phoneme.data ≠ [] ∧
      ∀ c ∈ l.phoneme.data, pyIsSpace c = false) :
    parse_lab_file (write_lab_file labels) = Except.ok labels := by
  show parseLines (linesOf (writeChars labels)) = Except.ok labels
  rw [linesOf_writeChars labels (fun l hl => (h l hl).2)]
  exact parseLines_mapped labels h

/-- Witness for C6 (amended) at a concrete list. -/
theorem c6_witness :
    parse_lab_file (write_lab_file [⟨0, 500000, "pau"⟩, ⟨500000, 1000000, "a"⟩]) =
      Except.ok [⟨0, 500000, "pau"⟩, ⟨500000, 1000000, "a"⟩] :=
  c6_roundtrip_wellformed [⟨0, 500000, "pau"⟩, ⟨500000, 1000000, "a"⟩] (by decide)

/-! ## C9: the merger never mutates its input

Every write of the store model targets `current_label`, which is always a
fresh `.copy()`: all cells that existed on entry — in particular all input
segments — are unchanged on exit.  This is stated as preservation of the
length-`n` prefix of the store, `n` being the store's size on entry. -/

theorem take_set_of_le : ∀ (st : Store) (r : Nat) (v : Label) (n : Nat), n ≤ r →
    (st.set r v).take n = st.take n
  | [], r, v, n, h => rfl
  | a :: t, r, v, 0, h => rfl
  | a :: t, 0, v, n + 1, h => absurd h (by omega)
  | a :: t, r + 1, v, n + 1, h => by
    rw [List.set_cons_succ, List.take_succ_cons, List.take_succ_cons,
        take_set_of_le t r v n (by omega)]

theorem writeStop_take {st : Store} {r : Nat} {e : Int} {n : Nat} (h : n ≤ r) :
    (writeStop st r e).take n = st.take n := take_set_of_le st r _ n h

theorem writePhoneme_take {st : Store} {r : Nat} {p : String} {n : Nat} (h : n ≤ r) :
    (writePhoneme st r p).take n = st.take n := take_set_of_le st r _ n h

theorem length_writeStop (st : Store) (r : Nat) (e : Int) :
    (writeStop st r e).length = st.length := List.length_set st r _

theorem length_writePhoneme (st : Store) (r : Nat) (p : String) :
    (writePhoneme st r p).length = st.length := List.length_set st r _

theorem pass1Ref_take (q : ℚ) (n : Nat) : ∀ (refs : List Nat) (st : Store)
    (cur : Nat) (g : String), n ≤ cur → n ≤ st.length →
    (pass1Ref q st cur g refs).1.take n = st.take n ∧
      n ≤ (pass1Ref q st cur g refs).1.length
  | [], st, cur, g, hc, hl => by
    simp only [pass1Ref]
    by_cases hg : g = "silence"
    · rw [if_pos hg]
      exact ⟨writePhoneme_take hc, by rw [length_writePhoneme]; exact hl⟩
    · rw [if_neg hg]
      exact ⟨rfl, hl⟩
  | nextRef :: rest, st, cur, g, hc, hl => by
    simp only [pass1Ref]
    by_cases hm : mergeStep q (readRef st cur) (readRef st nextRef) g
        (get_phoneme_group (readRef st nextRef).phoneme) = true
    · rw [if_pos hm]
      by_cases hg : g = "silence" ∧
          get_phoneme_group (readRef st nextRef).phoneme = "silence"
      · rw [if_pos hg]
        have hrec := pass1Ref_take q n rest
          (writePhoneme (writeStop st cur (readRef st nextRef).stop) cur "SP") cur g hc
          (by rw [length_writePhoneme, length_writeStop]; exact hl)
        exact ⟨by rw [hrec.1, writePhoneme_take hc, writeStop_take hc], hrec.2⟩
      · rw [if_neg hg]
        have hrec := pass1Ref_take q n rest
          (writeStop st cur (readRef st nextRef).stop) cur g hc
          (by rw [length_writeStop]; exact hl)
        exact ⟨by rw [hrec.1, writeStop_take hc], hrec.2⟩
    · rw [if_neg hm]
      by_cases hg : g = "silence"
      · rw [if_pos hg]
        simp only [copyRef]
        have hl1 : n ≤ (writePhoneme st cur "SP").length := by
          rw [length_writePhoneme]; exact hl
        have hrec := pass1Ref_take q n rest
          (writePhoneme st cur "SP" ++ [readRef (writePhoneme st cur "SP") nextRef])
          (writePhoneme st cur "SP").length
          (get_phoneme_group (readRef st nextRef).phoneme)
          hl1 (by rw [List.length_append]; omega)
        exact ⟨hrec.1.trans
          (by rw [List.take_append_of_le_length hl1, writePhoneme_take hc]), hrec.2⟩
      · rw [if_neg hg]
        simp only [copyRef]
        have hrec := pass1Ref_take q n rest
          (st ++ [readRef st nextRef]) st.length
          (get_phoneme_group (readRef st nextRef).phoneme)
          hl (by rw [List.length_append]; omega)
        exact ⟨hrec.1.trans (by rw [List.take_append_of_le_length hl]), hrec.2⟩

mutual

theorem pass2Ref_take (n : Nat) : ∀ (refs : List Nat) (st : Store), n ≤ st.length →
    (pass2Ref st refs).1.take n = st.take n ∧ n ≤ (pass2Ref st refs).1.length
  | [], st, hl => ⟨rfl, hl⟩
  | r :: rest, st, hl => by
    simp only [pass2Ref, copyRef]
    by_cases hsp : (readRef (st ++ [readRef st r]) st.length).phoneme = "SP"
    · rw [if_pos hsp]
      have hrec := pass2RefAbsorb_take n rest (st ++ [readRef st r]) st.length hl
        (by rw [List.length_append]; omega)
      exact ⟨hrec.1.trans (by rw [List.take_append_of_le_length hl]), hrec.2⟩
    · rw [if_neg hsp]
      have hrec := pass2Ref_take n rest (st ++ [readRef st r])
        (by rw [List.length_append]; omega)
      exact ⟨hrec.1.trans (by rw [List.take_append_of_le_length hl]), hrec.2⟩

theorem pass2RefAbsorb_take (n : Nat) : ∀ (refs : List Nat) (st : Store) (cur : Nat),
    n ≤ cur → n ≤ st.length →
    (pass2RefAbsorb st cur refs).1.take n = st.take n ∧
      n ≤ (pass2RefAbsorb st cur refs).1.length
  | [], st, cur, hc, hl => ⟨rfl, hl⟩
  | r :: rest, st, cur, hc, hl => by
    simp only [pass2RefAbsorb, copyRef]
    by_cases hsp : (readRef st r).phoneme = "SP"
    · rw [if_pos hsp]
      have hrec := pass2RefAbsorb_take n rest
        (writeStop st cur (readRef st r).stop) cur hc
        (by rw [length_writeStop]; exact hl)
      exact ⟨hrec.1.trans (by rw [writeStop_take hc]), hrec.2⟩
    · rw [if_neg hsp]
      have hrec := pass2Ref_take n rest (st ++ [readRef st r])
        (by rw [List.length_append]; omega)
      exact ⟨hrec.1.trans (by rw [List.take_append_of_le_length hl]), hrec.2⟩

end

/-- The final store of `merge_labels_ref` extends the input store: its
length-`n` prefix, `n` the input store's size, is the input store itself. -/
theorem merge_labels_ref_take (st : Store) (refs : List Nat) (q : ℚ) :
    (merge_labels_ref st refs q).1.take st.length = st := by
  cases refs with
  | nil => exact List.take_length st
  | cons r rest =>
    simp only [merge_labels_ref, copyRef]
    have h1 := pass1Ref_take q st.length rest (st ++ [readRef st r]) st.length
      (get_phoneme_group (readRef (st ++ [readRef st r]) st.length).phoneme)
      (le_refl _) (by rw [List.length_append]; omega)
    have h2 := pass2Ref_take st.length
      (pass1Ref q (st ++ [readRef st r]) st.length
        (get_phoneme_group (readRef (st ++ [readRef st r]) st.length).phoneme) rest).2
      (pass1Ref q (st ++ [readRef st r]) st.length
        (get_phoneme_group (readRef (st ++ [readRef st r]) st.length).phoneme) rest).1
      h1.2
    rw [h2.1, h1.1, List.take_append_of_le_length (le_refl _), List.take_length]

theorem readRef_take : ∀ (l : Store) (n r : Nat), r < n →
    readRef (l.take n) r = readRef l r
  | [], n, r, h => by rw [List.take_nil]
  | a :: t, n + 1, 0, h => rfl
  | a :: t, n + 1, r + 1, h => by
    rw [List.take_succ_cons]
    show (t.take n).getD r _ = t.getD r _
    exact readRef_take t n r (by omega)

/-- C9: `merge_labels` never mutates its input, in the store model of the
Python heap: after a call, every cell of the input store — in particular
every input segment — holds exactly the value it held before, and
dereferencing any input reference gives the same segment as before. -/
theorem c9_no_input_mutation (st : Store) (refs : List Nat) (q : ℚ)
    (h : ∀ r ∈ refs, r < st.length) :
    (merge_labels_ref st refs q).1.take st.length = st ∧
      ∀ r ∈ refs, readRef (merge_labels_ref st refs q).1 r = readRef st r := by
  refine ⟨merge_labels_ref_take st refs q, fun r hr => ?_⟩
  rw [← readRef_take (merge_labels_ref st refs q).1 st.length r (h r hr),
      merge_labels_ref_take st refs q]

/-- Witness for C9 at a concrete store and reference list. -/
theorem c9_witness :
    (merge_labels_ref [⟨0, 1, "pau"⟩, ⟨1, 2, "a"⟩] [0, 1] (mkRat 1 10)).1.take 2 =
        [⟨0, 1, "pau"⟩, ⟨1, 2, "a"⟩] ∧
      ∀ r ∈ [0, 1],
        readRef (merge_labels_ref [⟨0, 1, "pau"⟩, ⟨1, 2, "a"⟩] [0, 1] (mkRat 1 10)).1 r =
          readRef [⟨0, 1, "pau"⟩, ⟨1, 2, "a"⟩] r :=
  c9_no_input_mutation [⟨0, 1, "pau"⟩, ⟨1, 2, "a"⟩] [0, 1] (mkRat 1 10) (by decide)

/-! ## C7: totality and the empty input -/

/-- C7: `merge_labels` is total — modelled as a terminating Lean function,
it returns a result on every segment list — and the empty input yields the
empty output. -/
theorem c7_total_empty (q : ℚ) :
    merge_labels [] q = [] ∧ ∀ labels : List Label, ∃ out, merge_labels labels q = out :=
  ⟨rfl, fun labels => ⟨merge_labels labels q, rfl⟩⟩
